import Mathlib

/-!
Shallow embedding of the tag-carousel core of the Stash media bot
(tag normalization, ranked search, ephemeral keyed sessions with TTL
timers, and the carousel button handlers), together with theorems
checking the design document against this embedding.

Conventions of the embedding:
* JS strings are Lean `String` (`String.data` for per-character work).
* JS numbers that hold counts or epoch-millisecond timestamps are `Nat`;
  the sort comparators, which subtract, are `Int`-valued like in JS.
* The Prisma database is a `List MediaRec`; `findMany`/`findFirst`
  become filtering and searching of that list, `orderBy` becomes a
  stable sort (Prisma returns rows in a deterministic order; JS
  `Array.prototype.sort` is required to be stable, which `List.mergeSort`
  models exactly).
* The ambient `Map`-typed session stores become `Store`, a function
  from key to optional snapshot list; `Map.set`/`Map.delete` become
  `storePut`/`storeErase`.
* `async` externals that can reject (Discord sends, Prisma writes) are
  parametrized by explicit outcome values (`Option JsErr` oracles), and
  a thrown JS exception that escapes a handler is an `Except.error`.
-/

/-! ## TagService (tag.service.ts) -/

/-- One character of the class `[a-z0-9_]` kept by
`tag.replace(/[^a-z0-9_]/g, '')`. -/
def isTagChar (c : Char) : Bool :=
  (('a' ≤ c && c ≤ 'z') || ('0' ≤ c && c ≤ '9') || c == '_')

/-- A separator character of the split regex `/[\s,]+/`: a comma or a
whitespace character (the ASCII part of the JS `\s` class). -/
def isSepChar (c : Char) : Bool :=
  (c == ' ' || c == '\t' || c == '\n' || c == '\r' ||
   c == '\x0b' || c == '\x0c' || c == ',')

/-- JS `String.prototype.split` on a one-character-class regex applied
with `+`: the string is cut at every maximal run of separator
characters; a leading or trailing run contributes an empty piece, and
the empty string yields `[""]`. -/
def jsSplit (sep : Char → Bool) (s : List Char) : List (List Char) :=
  match h : s.dropWhile (fun c => !(sep c)) with
  | [] => [s.takeWhile (fun c => !(sep c))]
  | _ :: tail =>
      s.takeWhile (fun c => !(sep c)) :: jsSplit sep (tail.dropWhile sep)
termination_by s.length
decreasing_by
  have h1 : (s.dropWhile (fun c => !(sep c))).length ≤ s.length :=
    (List.dropWhile_sublist (fun c => !(sep c))).length_le
  rw [h] at h1
  have h2 : (tail.dropWhile sep).length ≤ tail.length :=
    (List.dropWhile_sublist sep).length_le
  simp only [List.length_cons] at h1
  omega

/-- Insertion-order deduplication: `Array.from(new Set(tags))` keeps the
first occurrence of each element, in order. -/
def dedupFirstAux (seen : List String) : List String → List String
  | [] => []
  | x :: xs =>
      if x ∈ seen then dedupFirstAux seen xs
      else x :: dedupFirstAux (x :: seen) xs

/-- Embedding of `Array.from(new Set(tags))`. -/
def dedupFirst (l : List String) : List String := dedupFirstAux [] l

/-- The token pipeline of `TagService.normalizeTags` before
deduplication: lowercase, split on runs of whitespace/commas, strip
characters outside `[a-z0-9_]`, drop empty tokens, drop tokens longer
than 50 characters. -/
def normalizeTokens (input : String) : List String :=
  let lowered := input.data.map Char.toLower
  let toks0 := jsSplit isSepChar lowered
  let toks1 := toks0.map (fun tag => tag.filter isTagChar)
  let toks2 := toks1.filter (fun tag => decide (0 < tag.length))
  let toks3 := toks2.filter (fun tag => decide (tag.length ≤ 50))
  toks3.map (fun tag => String.mk tag)

/-- Embedding of `TagService.normalizeTags` (tag.service.ts): normalize then
deduplicate preserving first-seen order and truncate to 20 tags. -/
def normalizeTags (input : String) : List String :=
  (dedupFirst (normalizeTokens input)).take 20

/-- JS `Array.prototype.join(' ')`: concatenation with a single space
between consecutive elements. -/
def joinSpace : List String → String
  | [] => ""
  | [t] => t
  | t :: ts => t ++ " " ++ joinSpace ts

/-! ## MediaService (media.service.ts) -/

/-- A row of the Prisma `media` table / the `MediaRecord` interface.
`deletedAt` is the tombstone timestamp (`null` = live). -/
structure MediaRec where
  id : String
  mediaUrl : String
  mediaType : String
  tags : List String
  guildId : String
  userId : String
  fileName : Option String := none
  thumbnailUrl : Option String := none
  recallCount : Nat := 0
  createdAt : Nat := 0
  deletedAt : Option Nat := none
deriving DecidableEq, Repr

/-- Embedding of `MediaService.deleteMedia(id, userId, isAdmin)`: find the first
non-tombstoned row with this id; absent, or requester neither owner nor
admin, means `false` and no change; otherwise stamp `deletedAt = now`
on the row and return `true`. -/
def deleteMedia (id userId : String) (isAdmin : Bool) (now : Nat)
    (db : List MediaRec) : Bool × List MediaRec :=
  match db.find? (fun m => m.id == id && m.deletedAt == none) with
  | none => (false, db)
  | some media =>
      if media.userId ≠ userId && !isAdmin then (false, db)
      else
        (true, db.map (fun m =>
          if m.id == id then { m with deletedAt := some now } else m))

/-- Embedding of `MediaService.updateTags(id, _userId, _isAdmin, newTags, _unused)`:
find the first non-tombstoned row with this id (absent means `none`,
the not-found signal); an empty `newTags` throws `Error('LAST_TAG')`
before any write; otherwise write `newTags.slice(0, 20)` as the new tag
list and return the updated record.  The `_userId`, `_isAdmin` and
`_unused` parameters are accepted but never read ("Anyone can edit tags
- no permission check needed"). -/
def updateTags (id _userId : String) (_isAdmin : Bool)
    (newTags _unused : List String) (db : List MediaRec) :
    Except String (Option MediaRec) × List MediaRec :=
  match db.find? (fun m => m.id == id && m.deletedAt == none) with
  | none => (.ok none, db)
  | some media =>
      if newTags.length = 0 then (.error "LAST_TAG", db)
      else
        let finalTags := newTags.take 20
        (.ok (some { media with tags := finalTags }),
         db.map (fun m =>
           if m.id == id then { m with tags := finalTags } else m))

/-! ## SearchService (search.service.ts) -/

/-- The `ScoredMedia` wrapper built inside `searchByTags`. -/
structure ScoredMedia where
  media : MediaRec
  score : Nat
  matchedTags : List String
deriving DecidableEq, Repr

/-- The comparator passed to `scored.sort`: matching-tag count
descending, then recall count descending, then creation date
descending, as signed differences like in the JS code. -/
def cmpScored (a b : ScoredMedia) : Int :=
  if a.score ≠ b.score then (b.score : Int) - (a.score : Int)
  else if a.media.recallCount ≠ b.media.recallCount then
    (b.media.recallCount : Int) - (a.media.recallCount : Int)
  else (b.media.createdAt : Int) - (a.media.createdAt : Int)

/-- Whether a row passes the optional `mediaType` filter of the
`findMany` `where` clause. -/
def matchesTypeFilter (typeFilter : Option String) (m : MediaRec) : Bool :=
  match typeFilter with
  | some t => m.mediaType == t
  | none => true

/-- The `prisma.media.findMany` call of `searchByTags`: all rows of the
guild, optionally filtered by media type (note: no tombstone filter),
ordered by `createdAt` descending. -/
def findManyByGuild (db : List MediaRec) (guildId : String)
    (typeFilter : Option String) : List MediaRec :=
  (db.filter (fun m => m.guildId == guildId && matchesTypeFilter typeFilter m)).mergeSort
    (fun a b => decide (b.createdAt ≤ a.createdAt))

/-- Embedding of `SearchService.searchByTags(guildId, searchTags, typeFilter)`:
fetch the guild corpus, score each row by the number of query tags it
contains, keep positive scores, sort with `cmpScored` (stable, like JS
`Array.prototype.sort`), and project the records back out. -/
def searchByTags (db : List MediaRec) (guildId : String)
    (searchTags : List String) (typeFilter : Option String) : List MediaRec :=
  let allMedia := findManyByGuild db guildId typeFilter
  let scored :=
    (allMedia.map (fun media =>
      let matchedTags := searchTags.filter (fun tag => media.tags.contains tag)
      ScoredMedia.mk media matchedTags.length matchedTags)).filter
      (fun item => decide (0 < item.score))
  let sorted := scored.mergeSort (fun a b => decide (cmpScored a b ≤ 0))
  sorted.map (fun item => item.media)

/-- Embedding of `SearchService.getTopMedia(guildId, typeFilter)`: the same fetch
(again with no tombstone filter), ordered by recall count descending
then creation date descending. -/
def getTopMedia (db : List MediaRec) (guildId : String)
    (typeFilter : Option String) : List MediaRec :=
  (db.filter (fun m => m.guildId == guildId && matchesTypeFilter typeFilter m)).mergeSort
    (fun a b => decide (b.recallCount < a.recallCount ∨
      (a.recallCount = b.recallCount ∧ b.createdAt ≤ a.createdAt)))

/-- The number of query tags a record matches (the `score` field the
code stores on `ScoredMedia`). -/
def scoreOf (searchTags : List String) (m : MediaRec) : Nat :=
  (searchTags.filter (fun tag => m.tags.contains tag)).length

/-- The three sort keys of the ranking, in priority order. -/
def rankKey (searchTags : List String) (m : MediaRec) : Nat × Nat × Nat :=
  (scoreOf searchTags m, m.recallCount, m.createdAt)

/-- Descending lexicographic comparison of rank-key triples:
`keyGE x y` says an item with keys `x` may legitimately precede one
with keys `y`. -/
def keyGE (x y : Nat × Nat × Nat) : Prop :=
  y.1 < x.1 ∨ (x.1 = y.1 ∧ (y.2.1 < x.2.1 ∨ (x.2.1 = y.2.1 ∧ y.2.2 ≤ x.2.2)))

/-! ## Session stores (the ambient `Map`s of recall.ts / delete.ts) -/

/-- A keyed session store: `Map<string, MediaRecord[]>`. -/
def Store : Type := String → Option (List MediaRec)

/-- Embedding of `map.set(key, value)`. -/
def storePut (s : Store) (key : String) (value : List MediaRec) : Store :=
  fun k => if k = key then some value else s k

/-- Embedding of `map.delete(key)`. -/
def storeErase (s : Store) (key : String) : Store :=
  fun k => if k = key then none else s k

/-- The store before any command ran. -/
def emptyStore : Store := fun _ => none

/-- Embedding of `SESSION_TIMEOUT_MS = 15 * 60 * 1000` (constants.ts). -/
def SESSION_TIMEOUT_MS : Nat := 15 * 60 * 1000

/-- The session-store effect of `handleRecallCommand` / the identical
code in `handleDeleteCommand`: when the search returned no results the
handler replies and leaves the store alone; otherwise it stores the
result list under the acting user's id (and arms the eviction timer,
whose firing is the `storeErase` step of the reachability relation
below and the timeline semantics `storeValueAt`). -/
def handleSearchCommandStore (s : Store) (userId : String)
    (results : List MediaRec) : Store :=
  if results.length = 0 then s else storePut s userId results

/-! ## Carousel button handler for delete mode (delete.ts) -/

/-- The user-visible outcome of one `handleDeleteButton` invocation. -/
inductive DeleteRes
  | sessionExpired
  | invalidCustomId
  | itemMissing
  | notAuthorized
  | deletedExhausted
  | deletedShowing (newIndex remaining : Nat)
  | navigated (newIndex : Nat)
  | unhandled
deriving DecidableEq, Repr

/-- Embedding of `handleNavigation` (navigation.ts) restricted to its outcome: clamp
`prev`/`next` saturating into `[0, len-1]`; other actions fall through.
The result list is never modified. -/
def navigationRes (results : List MediaRec) (action : String)
    (currentIndex : Nat) : DeleteRes :=
  if action = "prev" then .navigated (max 0 (currentIndex - 1))
  else if action = "next" then .navigated (min (results.length - 1) (currentIndex + 1))
  else .unhandled

/-- Embedding of `handleDeleteButton` (delete.ts).  `deleteOk` is the value returned
by the awaited `MediaService.deleteMedia` call (`false` = not found or
not owner/admin).  `findIdx = length` models JS `findIndex === -1`.
On a confirmed delete the code splices the record out of the array held
by the map; if the list became empty it deletes the session key,
otherwise it re-renders at `currentIndex`, pulled back to the new last
index when the deleted item was last. -/
def handleDeleteButton (s : Store) (userId action mediaId : String)
    (deleteOk : Bool) : DeleteRes × Store :=
  match s userId with
  | none => (.sessionExpired, s)
  | some results =>
    if action = "" ∨ mediaId = "" then (.invalidCustomId, s)
    else
      let currentIndex := results.findIdx (fun m => m.id == mediaId)
      if currentIndex = results.length then (.itemMissing, s)
      else if action = "confirm" then
        if !deleteOk then (.notAuthorized, s)
        else
          let results2 := results.eraseIdx currentIndex
          if results2.length = 0 then (.deletedExhausted, storeErase s userId)
          else
            let newIndex :=
              if results2.length ≤ currentIndex then results2.length - 1
              else currentIndex
            (.deletedShowing newIndex results2.length, storePut s userId results2)
      else (navigationRes results action currentIndex, s)

/-- The delete-session store states reachable through the code's own
operations: the initial empty map, a `/delete` search storing its
(possibly empty, then ignored) result list, any button interaction, and
an eviction timer firing for some key. -/
inductive reachableDelete : Store → Prop
  | init : reachableDelete emptyStore
  | command (s : Store) (userId : String) (results : List MediaRec) :
      reachableDelete s → reachableDelete (handleSearchCommandStore s userId results)
  | button (s : Store) (userId action mediaId : String) (deleteOk : Bool) :
      reachableDelete s →
      reachableDelete (handleDeleteButton s userId action mediaId deleteOk).2
  | expire (s : Store) (key : String) :
      reachableDelete s → reachableDelete (storeErase s key)

/-! ## Send flow of recall mode (recall.ts) -/

/-- A JS exception as `sendMedia` inspects it: either an object with a
numeric `code` property (Discord API errors) or anything else. -/
inductive JsErr
  | code (n : Nat)
  | generic
deriving DecidableEq, Repr

/-- Outcomes of the awaited external calls inside `sendMedia`, one per
call site (`none` = the promise resolved). -/
structure SendOracle where
  /-- The channel could be resolved and is text-based. -/
  channelValid : Bool
  /-- The channel is DM-based. -/
  channelIsDM : Bool
  /-- The delivery compound inside the `try` block: the CDN HEAD/GET
  fetches and the `channel.send` / `targetMessage.reply` that posts the
  payload (as file or as link, whichever branch runs). -/
  deliver : Option JsErr
  /-- `MediaService.incrementRecallCount` awaited right after a
  successful delivery, still inside the `try`. -/
  increment1 : Option JsErr
  /-- The `channel.send` of the link fallback inside the
  `error.code === 40005` branch of the `catch`. -/
  fallbackSend : Option JsErr
  /-- `MediaService.incrementRecallCount` inside the 40005 branch. -/
  increment2 : Option JsErr
deriving DecidableEq, Repr

/-- What `sendMedia` leaves on the user's screen when it resolves. -/
inductive SendOutcome
  | cannotSendChannel
  | cannotSendDM
  | sent
  | sentAsLink
  | permissionDenied
  | failed
deriving DecidableEq, Repr

/-- The `catch` block of `sendMedia`: code 50001 renders the
permission message; code 40005 retries as a plain link and then
increments the recall count — both awaits sit inside the `catch`, so
their own rejection escapes `sendMedia` (`Except.error`); any other
error renders the generic failure message. -/
def sendMediaCatch (e : JsErr) (orac : SendOracle) : Except JsErr SendOutcome :=
  match e with
  | .code 50001 => .ok .permissionDenied
  | .code 40005 =>
      match orac.fallbackSend with
      | some e2 => .error e2
      | none =>
          match orac.increment2 with
          | some e2 => .error e2
          | none => .ok .sentAsLink
  | _ => .ok .failed

/-- Embedding of `sendMedia` (recall.ts): early returns for unusable channels; then
`try { deliver; incrementRecallCount; update('Sent!') } catch (e) {...}`.
Note that the recall-count increment is awaited inside the `try`
*before* the success message, so its rejection is routed through the
same `catch` as a delivery failure. -/
def sendMedia (orac : SendOracle) : Except JsErr SendOutcome :=
  if !orac.channelValid then .ok .cannotSendChannel
  else if orac.channelIsDM then .ok .cannotSendDM
  else
    match orac.deliver with
    | some e => sendMediaCatch e orac
    | none =>
        match orac.increment1 with
        | some e => sendMediaCatch e orac
        | none => .ok .sent

/-- The user-visible outcome of one `handleRecallButton` invocation;
`uncaught` is a rejection that escaped `sendMedia` and therefore the
whole handler. -/
inductive RecallRes
  | sessionExpired
  | invalidCustomId
  | itemMissing
  | sendDone (outcome : SendOutcome)
  | uncaught (e : JsErr)
  | navigated (newIndex : Nat)
deriving DecidableEq, Repr

/-- Embedding of `handleRecallButton` (recall.ts): session lookup, item lookup, then
for `send` it awaits `sendMedia` and — only if that settles without an
uncaught rejection — deletes the session key (and the reply target);
other actions go to `handleNavigation` and leave the store alone. -/
def handleRecallButton (s : Store) (userId action mediaId : String)
    (orac : SendOracle) : RecallRes × Store :=
  match s userId with
  | none => (.sessionExpired, s)
  | some results =>
    if action = "" ∨ mediaId = "" then (.invalidCustomId, s)
    else
      let currentIndex := results.findIdx (fun m => m.id == mediaId)
      if currentIndex = results.length then (.itemMissing, s)
      else if action = "send" then
        match sendMedia orac with
        | .ok outcome => (.sendDone outcome, storeErase s userId)
        | .error e => (.uncaught e, s)
      else
        match navigationRes results action currentIndex with
        | .navigated i => (.navigated i, s)
        | _ => (.invalidCustomId, s)

/-! ## TTL timeline semantics of the session maps -/

/-- The last `map.set` at or before the query instant. -/
def lastPutAt {α : Type} (puts : List (Nat × α)) (q : Nat) : Option (Nat × α) :=
  (puts.filter (fun p => p.1 ≤ q)).getLast?

/-- Denotation of one key of a session map over time, given the
chronological list of `put` instants for that key.  Every put runs
`map.set` and arms `setTimeout(() => map.delete(key), SESSION_TIMEOUT_MS)`;
timers are never cancelled and their callbacks delete the key
unconditionally, so the value visible at time `q` is the last value put
at or before `q` — unless any put's timer (its put time plus the TTL)
fired after that last put and at or before `q`. -/
def storeValueAt {α : Type} (puts : List (Nat × α)) (q : Nat) : Option α :=
  match lastPutAt puts q with
  | none => none
  | some (t, v) =>
      if puts.any (fun p =>
          decide (t < p.1 + SESSION_TIMEOUT_MS) &&
          decide (p.1 + SESSION_TIMEOUT_MS ≤ q)) then none
      else some v

/-! ## Edit-tags modal handler (edit-tags.ts) -/

/-- The user-visible outcome of one `handleEditTagsModalSubmit`. -/
inductive EditRes
  | sessionExpired
  | mediaNotFound
  | cannotRemoveAllTags
  | failedToUpdate
  | updated (added removed : List String)
deriving DecidableEq, Repr

/-- Fallback record for the (unreachable, index-guarded) `getD`
below. -/
def defaultMediaRec : MediaRec :=
  { id := "", mediaUrl := "", mediaType := "", tags := [],
    guildId := "", userId := "" }

/-- The session-located core of `handleEditTagsModalSubmit`: locate the
item, normalize the submitted text, reject an empty normalization
before touching anything, otherwise run `MediaService.updateTags` and
replace the session entry with the returned record.  Returns the
outcome, the database after the call, and the session list after the
call. -/
def editTagsCore (db : List MediaRec) (results : List MediaRec)
    (userId mediaId text : String) :
    EditRes × List MediaRec × List MediaRec :=
  let mediaIndex := results.findIdx (fun m => m.id == mediaId)
  if mediaIndex = results.length then (.mediaNotFound, db, results)
  else
    let newTags := normalizeTags text
    if newTags.length = 0 then (.cannotRemoveAllTags, db, results)
    else
      let oldTags := (results.getD mediaIndex defaultMediaRec).tags
      match updateTags mediaId userId true newTags [] db with
      | (.error e, db2) =>
          if e = "LAST_TAG" then (.cannotRemoveAllTags, db2, results)
          else (.failedToUpdate, db2, results)
      | (.ok none, db2) => (.failedToUpdate, db2, results)
      | (.ok (some updatedMedia), db2) =>
          let results2 := results.set mediaIndex updatedMedia
          let added := newTags.filter (fun tag => !(oldTags.contains tag))
          let removed := oldTags.filter (fun tag => !(newTags.contains tag))
          (.updated added removed, db2, results2)

/-- Embedding of `handleEditTagsModalSubmit` (edit-tags.ts): the result list is the
recall session of the acting user if present, else the top session of
the carousel message; the mutated list is written back to the store it
came from. -/
def handleEditTagsModalSubmit (db : List MediaRec)
    (recallStore topStore : Store) (userId msgId mediaId text : String) :
    EditRes × List MediaRec × Store × Store :=
  match recallStore userId with
  | some results =>
      let (res, db2, results2) := editTagsCore db results userId mediaId text
      (res, db2, storePut recallStore userId results2, topStore)
  | none =>
      match topStore msgId with
      | some results =>
          let (res, db2, results2) := editTagsCore db results userId mediaId text
          (res, db2, recallStore, storePut topStore msgId results2)
      | none => (.sessionExpired, db, recallStore, topStore)

/-! ## Sample data for witnesses and counterexamples -/

/-- A stored image owned by alice. -/
def recA : MediaRec :=
  { id := "a1", mediaUrl := "https://cdn.example/a.png", mediaType := "image",
    tags := ["cat"], guildId := "g", userId := "alice",
    recallCount := 0, createdAt := 100 }

/-- A second stored image owned by alice. -/
def recB : MediaRec :=
  { id := "b2", mediaUrl := "https://cdn.example/b.png", mediaType := "image",
    tags := ["dog"], guildId := "g", userId := "alice",
    recallCount := 3, createdAt := 200 }

/-- A third stored image owned by bob. -/
def recC : MediaRec :=
  { id := "c3", mediaUrl := "https://cdn.example/c.png", mediaType := "image",
    tags := ["cat", "dog"], guildId := "g", userId := "bob",
    recallCount := 3, createdAt := 50 }

/-- All external send-path calls resolve. -/
def oracleOk : SendOracle :=
  { channelValid := true, channelIsDM := false, deliver := none,
    increment1 := none, fallbackSend := none, increment2 := none }

/-- Delivery rejects with code 40005 (payload too large) and the link
fallback send rejects too. -/
def oracleFallbackCrash : SendOracle :=
  { channelValid := true, channelIsDM := false,
    deliver := some (.code 40005), increment1 := none,
    fallbackSend := some .generic, increment2 := none }

/-- Delivery resolves but the recall-count increment rejects. -/
def oracleIncrementCrash : SendOracle :=
  { channelValid := true, channelIsDM := false, deliver := none,
    increment1 := some .generic, fallbackSend := none, increment2 := none }

/-! ## C9: tag editing ignores the requesting identity -/

/-- Claim C9: `MediaService.updateTags` is identical for any two
requesting-user identities and any two privilege-flag values — the
`_userId`, `_isAdmin` (and legacy `_unused`) arguments are never read,
so any user, including any viewer of a shared top carousel, can change
the tags of any item, including items owned by others. -/
theorem updateTags_ignores_identity (db : List MediaRec) (id u1 u2 : String)
    (a1 a2 : Bool) (newTags un1 un2 : List String) :
    updateTags id u1 a1 newTags un1 db = updateTags id u2 a2 newTags un2 db := rfl

/-! ## C5: the recall-count increment sits on the success path -/

/-- Claim C5 (refuted, code bug): the spec calls the recall-count
increment best-effort and off the success path, but `sendMedia` awaits
`MediaService.incrementRecallCount` inside the `try` before the
`'Sent!'` update, so when delivery resolves and the increment rejects
(first conjunct) the user gets the generic failure outcome; only when
the increment also resolves (second conjunct) is `'Sent!'` produced. -/
theorem sendMedia_increment_on_success_path :
    sendMedia oracleIncrementCrash = .ok .failed ∧
    sendMedia oracleOk = .ok .sent := by
  exact ⟨rfl, rfl⟩

/-! ## C4: session teardown after a `send` action -/

/-- Claim C4 counterexample: with the item present in the session, a
delivery rejection with code 40005 followed by a rejection of the
link-fallback send escapes `sendMedia`, so `handleRecallButton` never
reaches its `recallSessions.delete(userId)` line and the session key
survives the `send` action — the claimed unconditional teardown fails. -/
theorem sendTeardown_not_unconditional :
    (handleRecallButton (storePut emptyStore "u" [recA]) "u" "send" "a1"
        oracleFallbackCrash).2 "u" = some [recA] ∧
    (handleRecallButton (storePut emptyStore "u" [recA]) "u" "send" "a1"
        oracleFallbackCrash).1 = .uncaught .generic := by
  exact ⟨rfl, rfl⟩

/-- Claim C4 as amended: handling `send` on an item present in the
session removes the session key before the handler returns whenever
`sendMedia` settles without an uncaught rejection — delivery success,
link fallback, handled permission or generic failures, and unusable
channels alike — and any subsequent action under that key then yields
the session-expired outcome; but when an exception escapes the 40005
fallback branch the key survives (see the counterexample). -/
theorem sendTeardown_when_settled (s : Store) (userId mediaId : String)
    (results : List MediaRec) (orac : SendOracle) (outcome : SendOutcome)
    (hs : s userId = some results)
    (hmid : mediaId ≠ "")
    (hfound : results.findIdx (fun m => m.id == mediaId) ≠ results.length)
    (hok : sendMedia orac = .ok outcome) :
    (handleRecallButton s userId "send" mediaId orac).2 userId = none ∧
    ∀ action2 mediaId2 orac2,
      (handleRecallButton ((handleRecallButton s userId "send" mediaId orac).2)
        userId action2 mediaId2 orac2).1 = .sessionExpired := by
  have hstep : handleRecallButton s userId "send" mediaId orac =
      (.sendDone outcome, storeErase s userId) := by
    unfold handleRecallButton
    rw [hs]
    simp only [hfound, hmid, hok]
    simp
  refine ⟨?_, ?_⟩
  · rw [hstep]
    simp [storeErase]
  · intro action2 mediaId2 orac2
    rw [hstep]
    unfold handleRecallButton
    simp [storeErase]

/-- Claim C4 witness: on a concrete one-item session with every
external call resolving, the send action leaves the key unresolvable
and a repeated press reports an expired session. -/
theorem sendTeardown_when_settled_witness :
    (handleRecallButton (storePut emptyStore "u" [recA]) "u" "send" "a1"
        oracleOk).2 "u" = none ∧
    ∀ action2 mediaId2 orac2,
      (handleRecallButton ((handleRecallButton (storePut emptyStore "u" [recA])
          "u" "send" "a1" oracleOk).2) "u" action2 mediaId2 orac2).1 =
        .sessionExpired :=
  sendTeardown_when_settled (storePut emptyStore "u" [recA]) "u" "a1" [recA]
    oracleOk .sent (by rfl) (by decide) (by decide) (by rfl)

/-! ## C1: a second `put` does not survive the first timer -/

/-- Claim C1 counterexample: sessions stored for the same key at t=0
and t=1; at t = `SESSION_TIMEOUT_MS` — still strictly inside the second
session's claimed 15-minute window — the first store's uncancelled
timer has already fired and deleted the key, so the second session is
not retrievable. -/
theorem ttl_second_session_evicted_early :
    storeValueAt [(0, [recA]), (1, [recB])] SESSION_TIMEOUT_MS = none ∧
    1 ≤ SESSION_TIMEOUT_MS ∧
    SESSION_TIMEOUT_MS < 1 + SESSION_TIMEOUT_MS := by
  refine ⟨rfl, by decide, by decide⟩

/-- Claim C1 as amended: the eviction timers are not generation-tagged
— `setTimeout(() => map.delete(key), SESSION_TIMEOUT_MS)` deletes
whatever the key holds when it fires — so after a second store at `t2`
inside the first store's window, the second session is retrievable at
exactly the instants `q` with `t2 ≤ q` that precede the *first* timer's
expiry `t1 + SESSION_TIMEOUT_MS`, not until 15 minutes after its own
store time. -/
theorem ttl_second_session_window (t1 t2 q : Nat) (v1 v2 : List MediaRec)
    (h12 : t1 < t2) (hwin : t2 < t1 + SESSION_TIMEOUT_MS) (hq : t2 ≤ q) :
    storeValueAt [(t1, v1), (t2, v2)] q = some v2 ↔
      q < t1 + SESSION_TIMEOUT_MS := by
  unfold storeValueAt lastPutAt
  have ht1 : t1 ≤ q := by omega
  simp only [List.filter, ht1, hq, decide_True, List.getLast?]
  simp only [List.any, Bool.or_false, Bool.and_eq_true, decide_eq_true_eq,
    Bool.or_eq_true]
  constructor
  · intro hsome
    by_contra hge
    simp only [not_lt] at hge
    simp [hwin, hge] at hsome
  · intro hlt
    have h2 : q < t2 + SESSION_TIMEOUT_MS := by omega
    simp [hlt, h2]

/-- Claim C1 witness: concrete two stores at t=0 and t=1; at t=1 the
second session is retrievable because the first timer has not yet
fired. -/
theorem ttl_second_session_window_witness :
    (0 : Nat) < 1 ∧ (1 : Nat) < 0 + SESSION_TIMEOUT_MS ∧
    (storeValueAt [(0, [recA]), (1, [recB])] 1 = some [recB] ↔
      1 < 0 + SESSION_TIMEOUT_MS) :=
  ⟨by decide, by decide,
   ttl_second_session_window 0 1 1 [recA] [recB] (by decide) (by decide)
     (by decide)⟩

/-! ## C6/C7: the delete-mode carousel -/

/-- Helper: putting a non-empty list preserves the all-values-non-empty
store invariant. -/
theorem storePut_keeps_nonempty (s : Store) (key : String) (v : List MediaRec)
    (hs : ∀ k l, s k = some l → l ≠ []) (hv : v ≠ []) :
    ∀ k l, storePut s key v k = some l → l ≠ [] := by
  intro k l h
  unfold storePut at h
  by_cases he : k = key
  · rw [if_pos he] at h
    cases h
    exact hv
  · rw [if_neg he] at h
    exact hs k l h

/-- Helper: erasing a key preserves the all-values-non-empty store
invariant. -/
theorem storeErase_keeps_nonempty (s : Store) (key : String)
    (hs : ∀ k l, s k = some l → l ≠ []) :
    ∀ k l, storeErase s key k = some l → l ≠ [] := by
  intro k l h
  unfold storeErase at h
  by_cases he : k = key
  · rw [if_pos he] at h
    cases h
  · rw [if_neg he] at h
    exact hs k l h

/-- Helper: the store after a delete-button interaction is the old
store, the old store with the acting user's key evicted, or the old
store with a non-empty spliced list stored for the acting user. -/
theorem handleDeleteButton_storeShape (s : Store) (uid a mid : String)
    (ok : Bool) :
    (handleDeleteButton s uid a mid ok).2 = s ∨
    (handleDeleteButton s uid a mid ok).2 = storeErase s uid ∨
    ∃ results2, results2 ≠ [] ∧
      (handleDeleteButton s uid a mid ok).2 = storePut s uid results2 := by
  unfold handleDeleteButton
  cases hsu : s uid with
  | none => left; rfl
  | some results =>
    dsimp only
    by_cases h1 : a = "" ∨ mid = ""
    · rw [if_pos h1]; left; rfl
    · rw [if_neg h1]
      by_cases h2 : results.findIdx (fun m => m.id == mid) = results.length
      · simp only [h2, if_pos rfl]; left; rfl
      · rw [if_neg h2]
        by_cases h3 : a = "confirm"
        · rw [if_pos h3]
          cases ok with
          | false => left; rfl
          | true =>
            simp only [Bool.not_true, Bool.false_eq_true, if_false]
            by_cases h4 :
                (results.eraseIdx (results.findIdx (fun m => m.id == mid))).length = 0
            · rw [if_pos h4]; right; left; rfl
            · rw [if_neg h4]
              right; right
              refine ⟨results.eraseIdx (results.findIdx (fun m => m.id == mid)),
                ?_, rfl⟩
              intro hnil
              rw [hnil] at h4
              simp at h4
        · rw [if_neg h3]
          cases hnav : navigationRes results a
              (results.findIdx (fun m => m.id == mid)) <;> left <;> rfl

/-- Claim C6: delete sessions are only created from non-empty result
lists and a confirmed delete that empties the list evicts the whole
key, so in every store state reachable through the code's operations
every present key maps to a non-empty list; and once the key is gone,
any further button action yields the session-expired outcome. -/
theorem deleteSessions_never_empty :
    (∀ s, reachableDelete s → ∀ k l, s k = some l → l ≠ []) ∧
    (∀ (s : Store) (userId action mediaId : String) (ok : Bool),
      s userId = none →
      (handleDeleteButton s userId action mediaId ok).1 = .sessionExpired) := by
  constructor
  · intro s hs
    induction hs with
    | init =>
        intro k l hk
        exact absurd hk (by simp [emptyStore])
    | command s2 uid results _ ih =>
        intro k l hk
        unfold handleSearchCommandStore at hk
        by_cases hres : results.length = 0
        · rw [if_pos hres] at hk
          exact ih k l hk
        · rw [if_neg hres] at hk
          refine storePut_keeps_nonempty s2 uid results ih ?_ k l hk
          intro hnil
          rw [hnil] at hres
          simp at hres
    | button s2 uid a mid ok _ ih =>
        rcases handleDeleteButton_storeShape s2 uid a mid ok with hsh | hsh | ⟨r2, hr2, hsh⟩
        · rw [hsh]; exact ih
        · rw [hsh]; exact storeErase_keeps_nonempty s2 uid ih
        · rw [hsh]; exact storePut_keeps_nonempty s2 uid r2 ih hr2
    | expire s2 key _ ih =>
        exact storeErase_keeps_nonempty s2 key ih
  · intro s userId action mediaId ok hnone
    unfold handleDeleteButton
    rw [hnone]

/-- Claim C6 witness: a session stored from a one-element search
result is non-empty by the invariant, and pressing a button with no
session present reports the expired session. -/
theorem deleteSessions_never_empty_witness :
    ([recA] ≠ ([] : List MediaRec)) ∧
    (handleDeleteButton emptyStore "u" "confirm" "a1" true).1 = .sessionExpired :=
  ⟨deleteSessions_never_empty.1 (handleSearchCommandStore emptyStore "u" [recA])
      (reachableDelete.command emptyStore "u" [recA] reachableDelete.init)
      "u" [recA] (by rfl),
   deleteSessions_never_empty.2 emptyStore "u" "confirm" "a1" true (by rfl)⟩

/-- Claim C7: on a session list of length `n ≥ 2`, an authorized
confirmed delete of the item at index `i` stores the original list with
position `i` removed and renders the item at index
`max 0 (min i (n-2))` of the new list — what is now at `i`, or the new
last element when `i` was the last index. -/
theorem deleteRenormalization (s : Store) (userId mediaId : String)
    (results : List MediaRec) (i : Nat)
    (hs : s userId = some results)
    (hlen : 2 ≤ results.length)
    (hmid : mediaId ≠ "")
    (hfind : results.findIdx (fun m => m.id == mediaId) = i)
    (hi : i < results.length) :
    handleDeleteButton s userId "confirm" mediaId true =
      (.deletedShowing (max 0 (min i (results.length - 2)))
         (results.length - 1),
       storePut s userId (results.eraseIdx i)) := by
  unfold handleDeleteButton
  rw [hs]
  dsimp only
  rw [hfind]
  have h1 : ¬("confirm" = "" ∨ mediaId = "") := by simp [hmid]
  rw [if_neg h1, if_neg (show ¬i = results.length by omega), if_pos rfl]
  simp only [Bool.not_true, Bool.false_eq_true, if_false]
  have hlen2 : (results.eraseIdx i).length = results.length - 1 :=
    List.length_eraseIdx_of_lt hi
  rw [if_neg (show ¬(results.eraseIdx i).length = 0 by omega)]
  rw [hlen2]
  have hidx : (if results.length - 1 ≤ i then results.length - 1 - 1 else i) =
      max 0 (min i (results.length - 2)) := by
    split_ifs with h <;> omega
  rw [hidx]

/-- Claim C7 witness: deleting the middle item of a concrete
three-item session renders index 1 of the remaining two items. -/
theorem deleteRenormalization_witness :
    handleDeleteButton (storePut emptyStore "u" [recA, recB, recC]) "u"
        "confirm" "b2" true =
      (.deletedShowing (max 0 (min 1 ([recA, recB, recC].length - 2)))
         ([recA, recB, recC].length - 1),
       storePut (storePut emptyStore "u" [recA, recB, recC]) "u"
         ([recA, recB, recC].eraseIdx 1)) :=
  deleteRenormalization (storePut emptyStore "u" [recA, recB, recC]) "u" "b2"
    [recA, recB, recC] 1 (by rfl) (by decide) (by decide) (by decide) (by decide)

/-! ## Unfolding lemmas for `jsSplit` and small store facts -/

/-- Helper: `jsSplit` when no separator occurs in the remainder. -/
theorem jsSplit_last (sep : Char → Bool) (s : List Char)
    (h : s.dropWhile (fun c => !(sep c)) = []) :
    jsSplit sep s = [s.takeWhile (fun c => !(sep c))] := by
  rw [jsSplit.eq_def]
  split
  · rfl
  · rename_i c tail heq
    rw [h] at heq
    cases heq

/-- Helper: `jsSplit` when a separator is found: emit the token before
it, skip the separator run, continue. -/
theorem jsSplit_cons (sep : Char → Bool) (s : List Char) (c : Char)
    (tail : List Char)
    (h : s.dropWhile (fun c => !(sep c)) = c :: tail) :
    jsSplit sep s =
      s.takeWhile (fun c => !(sep c)) :: jsSplit sep (tail.dropWhile sep) := by
  rw [jsSplit.eq_def]
  split
  · rename_i heq
    rw [h] at heq
    cases heq
  · rename_i c2 tail2 heq
    rw [h] at heq
    cases heq
    rfl

/-- Helper: the empty submission normalizes to the empty tag list. -/
theorem normalizeTags_empty : normalizeTags "" = [] := by
  unfold normalizeTags normalizeTokens
  rw [show ("" : String).data = [] from rfl, List.map_nil]
  dsimp only
  rw [jsSplit_last isSepChar [] rfl]
  rfl

/-- Helper: re-storing the value a key already holds is the identity on
the store. -/
theorem storePut_self (s : Store) (key : String) (v : List MediaRec)
    (h : s key = some v) : storePut s key v = s := by
  funext k
  unfold storePut
  by_cases he : k = key
  · rw [if_pos he, he, h]
  · rw [if_neg he]

/-! ## C8: edit-to-empty is rejected atomically -/

/-- Claim C8: an edit submission whose text normalizes to the empty tag
list yields the distinct cannot-remove-all-tags outcome with both the
database and the session stores untouched — through the recall-session
path and through the top-session path alike — and the repository-level
`updateTags` rejects an empty tag list on a present record with the
distinguishable `LAST_TAG` error before performing any mutation. -/
theorem editToEmpty_rejected :
    (∀ (db : List MediaRec) (recallStore topStore : Store)
       (userId msgId mediaId text : String) (results : List MediaRec),
      recallStore userId = some results →
      results.findIdx (fun m => m.id == mediaId) ≠ results.length →
      normalizeTags text = [] →
      handleEditTagsModalSubmit db recallStore topStore userId msgId mediaId text =
        (.cannotRemoveAllTags, db, recallStore, topStore)) ∧
    (∀ (db : List MediaRec) (recallStore topStore : Store)
       (userId msgId mediaId text : String) (results : List MediaRec),
      recallStore userId = none →
      topStore msgId = some results →
      results.findIdx (fun m => m.id == mediaId) ≠ results.length →
      normalizeTags text = [] →
      handleEditTagsModalSubmit db recallStore topStore userId msgId mediaId text =
        (.cannotRemoveAllTags, db, recallStore, topStore)) ∧
    (∀ (db : List MediaRec) (id u : String) (a : Bool) (unused : List String)
       (m : MediaRec),
      db.find? (fun r => r.id == id && r.deletedAt == none) = some m →
      updateTags id u a [] unused db = (.error "LAST_TAG", db)) := by
  have hcore : ∀ (db results : List MediaRec) (userId mediaId text : String),
      results.findIdx (fun m => m.id == mediaId) ≠ results.length →
      normalizeTags text = [] →
      editTagsCore db results userId mediaId text =
        (.cannotRemoveAllTags, db, results) := by
    intro db results userId mediaId text hfound hnorm
    unfold editTagsCore
    rw [if_neg hfound, hnorm]
    rfl
  refine ⟨?_, ?_, ?_⟩
  · intro db recallStore topStore userId msgId mediaId text results hrc hfound hnorm
    unfold handleEditTagsModalSubmit
    rw [hrc]
    dsimp only
    rw [hcore db results userId mediaId text hfound hnorm]
    rw [storePut_self recallStore userId results hrc]
  · intro db recallStore topStore userId msgId mediaId text results hrc htop hfound hnorm
    unfold handleEditTagsModalSubmit
    rw [hrc, htop]
    dsimp only
    rw [hcore db results userId mediaId text hfound hnorm]
    rw [storePut_self topStore msgId results htop]
  · intro db id u a unused m hfind
    unfold updateTags
    rw [hfind]
    rfl

/-- Claim C8 witness: a concrete one-item recall session and an empty
submission; the outcome is the cannot-remove-all-tags error and the
database, session stores and stored record are unchanged, and the
repository call with an empty list throws `LAST_TAG` for any
requester. -/
theorem editToEmpty_rejected_witness :
    handleEditTagsModalSubmit [recA] (storePut emptyStore "u" [recA])
        emptyStore "u" "m" "a1" "" =
      (.cannotRemoveAllTags, [recA], storePut emptyStore "u" [recA],
       emptyStore) ∧
    updateTags "a1" "mallory" false [] [] [recA] = (.error "LAST_TAG", [recA]) :=
  ⟨editToEmpty_rejected.1 [recA] (storePut emptyStore "u" [recA]) emptyStore
      "u" "m" "a1" "" [recA] (by rfl) (by decide) normalizeTags_empty,
   editToEmpty_rejected.2.2 [recA] "a1" "mallory" false [] recA (by rfl)⟩

/-! ## C2: tombstoned records and the search fetch -/

/-- Claim C2 (refuted, code bug): `deleteMedia` succeeds and stamps the
tombstone, but the `findMany` used by `searchByTags` and `getTopMedia`
filters only on guild and media type — there is no `deletedAt: null`
clause — so the freshly tombstoned record still appears in both result
sequences for a matching query. -/
theorem tombstoned_record_still_searchable :
    (deleteMedia "a1" "alice" false 555 [recA]).1 = true ∧
    ((deleteMedia "a1" "alice" false 555 [recA]).2.map (fun m => m.deletedAt)) =
      [some 555] ∧
    ((searchByTags (deleteMedia "a1" "alice" false 555 [recA]).2 "g" ["cat"]
        none).map (fun m => m.id)) = ["a1"] ∧
    ((getTopMedia (deleteMedia "a1" "alice" false 555 [recA]).2 "g"
        none).map (fun m => m.id)) = ["a1"] := by
  refine ⟨rfl, rfl, ?_, ?_⟩
  · simp [deleteMedia, searchByTags, findManyByGuild, matchesTypeFilter,
      List.mergeSort, recA, cmpScored]
  · simp [deleteMedia, getTopMedia, matchesTypeFilter, List.mergeSort, recA]

/-! ## C3: ranking helper lemmas -/

/-- Helper: the JS comparator is non-positive exactly when the first
item's key triple is lexicographically at or above the second's. -/
theorem cmpScored_le_iff (a b : ScoredMedia) :
    cmpScored a b ≤ 0 ↔
      keyGE (a.score, a.media.recallCount, a.media.createdAt)
        (b.score, b.media.recallCount, b.media.createdAt) := by
  unfold cmpScored keyGE
  dsimp only
  split_ifs with h1 h2 <;> omega

/-- Helper: the boolean order used for the ranking sort is
transitive. -/
theorem cmpScored_trans (a b c : ScoredMedia) :
    decide (cmpScored a b ≤ 0) = true → decide (cmpScored b c ≤ 0) = true →
    decide (cmpScored a c ≤ 0) = true := by
  simp only [decide_eq_true_eq, cmpScored_le_iff]
  unfold keyGE
  dsimp only
  omega

/-- Helper: the boolean order used for the ranking sort is total. -/
theorem cmpScored_total (a b : ScoredMedia) :
    (decide (cmpScored a b ≤ 0) || decide (cmpScored b a ≤ 0)) = true := by
  simp only [Bool.or_eq_true, decide_eq_true_eq, cmpScored_le_iff]
  unfold keyGE
  dsimp only
  omega

/-- Helper: ties under the key triple may stand in either order. -/
theorem cmpScored_le_of_keys_eq (a b : ScoredMedia)
    (h : (a.score, a.media.recallCount, a.media.createdAt) =
      (b.score, b.media.recallCount, b.media.createdAt)) :
    decide (cmpScored a b ≤ 0) = true := by
  simp only [decide_eq_true_eq, cmpScored_le_iff, h]
  unfold keyGE
  dsimp only
  omega

/-- Helper: a stable sort leaves the relative order of any family of
pairwise-tied elements untouched: filtering them out of the sorted list
gives exactly the filter of the input list. -/
theorem mergeSort_filter_tied {α : Type} (le : α → α → Bool)
    (htrans : ∀ a b c, le a b = true → le b c = true → le a c = true)
    (htotal : ∀ a b, (le a b || le b a) = true)
    (p : α → Bool) (hp : ∀ a b, p a = true → p b = true → le a b = true)
    (l : List α) :
    (l.mergeSort le).filter p = l.filter p := by
  have hpw : (l.filter p).Pairwise (fun a b => le a b = true) :=
    List.pairwise_of_forall_mem_list (fun a ha b hb =>
      hp a b (List.of_mem_filter ha) (List.of_mem_filter hb))
  have hsub : (l.filter p).Sublist (l.mergeSort le) :=
    List.sublist_mergeSort htrans htotal hpw (List.filter_sublist l)
  have hfilterself : (l.filter p).filter p = l.filter p := by
    rw [List.filter_filter]
    apply List.filter_congr
    intro x _
    cases hx : p x <;> simp [hx]
  have hsub2 : (l.filter p).Sublist ((l.mergeSort le).filter p) := by
    have h2 := hsub.filter p
    rwa [hfilterself] at h2
  have hlen : (l.filter p).length = ((l.mergeSort le).filter p).length :=
    (((List.mergeSort_perm l le).filter p).length_eq).symm
  exact (hsub2.eq_of_length hlen).symm

/-- Claim C3: for a duplicate-free query (the spec's `SearchQuery` has
ordered-unique tags; every call site passes `normalizeTags` output),
`searchByTags` returns exactly the fetched candidates sharing at least
one tag with the query — as a permutation and as a membership
characterization — where the primary key is the count of distinct query
tags present; the fetch itself is ordered `createdAt`-descending; the
output is sorted by (score desc, recallCount desc, createdAt desc);
residual ties (equal key triples) keep exactly the fetch order; and the
function is deterministic: repeated calls on the same inputs are
identical. -/
theorem searchByTags_ranking (db : List MediaRec) (guildId : String)
    (searchTags : List String) (typeFilter : Option String)
    (hnd : searchTags.Nodup) :
    ((searchByTags db guildId searchTags typeFilter).Perm
      ((findManyByGuild db guildId typeFilter).filter
        (fun m => decide (0 < scoreOf searchTags m)))) ∧
    (∀ m, m ∈ searchByTags db guildId searchTags typeFilter ↔
      (m ∈ findManyByGuild db guildId typeFilter ∧
        ∃ t ∈ searchTags, t ∈ m.tags)) ∧
    (∀ m, scoreOf searchTags m =
      (searchTags.toFinset.filter (fun t => t ∈ m.tags)).card) ∧
    ((findManyByGuild db guildId typeFilter).Pairwise
      (fun a b => b.createdAt ≤ a.createdAt)) ∧
    ((searchByTags db guildId searchTags typeFilter).Pairwise
      (fun a b => keyGE (rankKey searchTags a) (rankKey searchTags b))) ∧
    (∀ kv : Nat × Nat × Nat,
      (searchByTags db guildId searchTags typeFilter).filter
          (fun m => decide (rankKey searchTags m = kv)) =
        ((findManyByGuild db guildId typeFilter).filter
            (fun m => decide (0 < scoreOf searchTags m))).filter
          (fun m => decide (rankKey searchTags m = kv))) ∧
    (searchByTags db guildId searchTags typeFilter =
      searchByTags db guildId searchTags typeFilter) := by
  classical
  set cands := findManyByGuild db guildId typeFilter with hcands
  set F : MediaRec → ScoredMedia := fun media =>
    { media := media,
      score := (searchTags.filter (fun tag => media.tags.contains tag)).length,
      matchedTags := searchTags.filter (fun tag => media.tags.contains tag) }
    with hF
  set q : ScoredMedia → Bool := fun item => decide (0 < item.score) with hq
  set le : ScoredMedia → ScoredMedia → Bool :=
    fun a b => decide (cmpScored a b ≤ 0) with hle
  set scored := (cands.map F).filter q with hscored
  have htransle : ∀ a b c : ScoredMedia,
      le a b = true → le b c = true → le a c = true :=
    fun a b c => cmpScored_trans a b c
  have htotalle : ∀ a b : ScoredMedia, (le a b || le b a) = true :=
    fun a b => cmpScored_total a b
  have hout : searchByTags db guildId searchTags typeFilter =
      (scored.mergeSort le).map (fun item => item.media) := rfl
  have hcollapse : scored.map (fun item => item.media) =
      cands.filter (fun m => decide (0 < scoreOf searchTags m)) := by
    rw [hscored, List.filter_map, List.map_map]
    have h1 : ((fun item : ScoredMedia => item.media) ∘ F) = id := rfl
    rw [h1, List.map_id]
    rfl
  have hperm : (scored.mergeSort le).Perm scored := List.mergeSort_perm scored le
  have hpermOut : (searchByTags db guildId searchTags typeFilter).Perm
      (cands.filter (fun m => decide (0 < scoreOf searchTags m))) := by
    rw [hout, ← hcollapse]
    exact hperm.map _
  have hmemScored : ∀ s ∈ scored, s.score = scoreOf searchTags s.media := by
    intro s hs
    rw [hscored] at hs
    rcases List.mem_filter.mp hs with ⟨hmap, _⟩
    rcases List.mem_map.mp hmap with ⟨m, _, rfl⟩
    rfl
  have hmem : ∀ m, m ∈ searchByTags db guildId searchTags typeFilter ↔
      (m ∈ cands ∧ ∃ t ∈ searchTags, t ∈ m.tags) := by
    intro m
    rw [hpermOut.mem_iff, List.mem_filter]
    apply and_congr_right
    intro _
    simp only [decide_eq_true_eq, scoreOf]
    rw [List.length_pos, Ne, List.filter_eq_nil_iff]
    push_neg
    simp [List.elem_iff]
  have hscore : ∀ m, scoreOf searchTags m =
      (searchTags.toFinset.filter (fun t => t ∈ m.tags)).card := by
    intro m
    have h1 : (searchTags.filter (fun tag => m.tags.contains tag)).Nodup :=
      hnd.filter _
    unfold scoreOf
    rw [← List.toFinset_card_of_nodup h1, List.toFinset_filter]
    congr 1
    apply Finset.filter_congr
    intro t _
    simp [List.elem_iff]
  have hfetchSorted : cands.Pairwise (fun a b => b.createdAt ≤ a.createdAt) := by
    rw [hcands]
    unfold findManyByGuild
    have hs := @List.sorted_mergeSort MediaRec
      (fun (a b : MediaRec) => decide (b.createdAt ≤ a.createdAt))
      (fun a b c hab hbc => by
        simp only [decide_eq_true_eq] at hab hbc ⊢
        omega)
      (fun a b => by
        simp only [Bool.or_eq_true, decide_eq_true_eq]
        omega)
      (db.filter (fun m => m.guildId == guildId && matchesTypeFilter typeFilter m))
    exact hs.imp (by simp)
  have hsortedS : (scored.mergeSort le).Pairwise (fun a b => le a b = true) :=
    List.sorted_mergeSort htransle htotalle scored
  have hsortedOut : (searchByTags db guildId searchTags typeFilter).Pairwise
      (fun a b => keyGE (rankKey searchTags a) (rankKey searchTags b)) := by
    rw [hout, List.pairwise_map]
    refine List.Pairwise.imp_of_mem ?_ hsortedS
    intro a b ha hb hab
    have ha2 := hmemScored a (hperm.mem_iff.mp ha)
    have hb2 := hmemScored b (hperm.mem_iff.mp hb)
    have h3 : cmpScored a b ≤ 0 := by
      have := hab
      rw [hle] at this
      exact of_decide_eq_true this
    have h4 := (cmpScored_le_iff a b).mp h3
    unfold rankKey
    rw [← ha2, ← hb2]
    exact h4
  have hstab : ∀ kv : Nat × Nat × Nat,
      (searchByTags db guildId searchTags typeFilter).filter
          (fun m => decide (rankKey searchTags m = kv)) =
        (cands.filter (fun m => decide (0 < scoreOf searchTags m))).filter
          (fun m => decide (rankKey searchTags m = kv)) := by
    intro kv
    set pm : MediaRec → Bool := fun m => decide (rankKey searchTags m = kv)
      with hpm
    set ps : ScoredMedia → Bool := fun s =>
      decide (s.score = scoreOf searchTags s.media) && pm s.media with hps
    have hp : ∀ a b : ScoredMedia, ps a = true → ps b = true → le a b = true := by
      intro a b hha hhb
      rw [hps] at hha hhb
      simp only [Bool.and_eq_true, decide_eq_true_eq, hpm, rankKey] at hha hhb
      rcases hha with ⟨hcohA, hkvA⟩
      rcases hhb with ⟨hcohB, hkvB⟩
      apply cmpScored_le_of_keys_eq
      rw [hcohA, hcohB]
      rw [hkvA, hkvB]
    have hchain1 : ((scored.mergeSort le).filter ps) = scored.filter ps :=
      mergeSort_filter_tied le htransle htotalle ps hp scored
    have hcongS : ∀ (L : List ScoredMedia),
        (∀ s ∈ L, s.score = scoreOf searchTags s.media) →
        L.filter ps = L.filter (fun s => pm s.media) := by
      intro L hL
      apply List.filter_congr
      intro s hsL
      simp only [hps]
      rw [hL s hsL]
      simp
    have hmemSorted : ∀ s ∈ scored.mergeSort le,
        s.score = scoreOf searchTags s.media :=
      fun s hs => hmemScored s (hperm.mem_iff.mp hs)
    calc (searchByTags db guildId searchTags typeFilter).filter pm
        = ((scored.mergeSort le).map (fun i => i.media)).filter pm := by
          rw [hout]
      _ = ((scored.mergeSort le).filter (fun s => pm s.media)).map
            (fun i => i.media) := by
          rw [List.filter_map]
          rfl
      _ = ((scored.mergeSort le).filter ps).map (fun i => i.media) := by
          rw [hcongS _ hmemSorted]
      _ = (scored.filter ps).map (fun i => i.media) := by rw [hchain1]
      _ = (scored.filter (fun s => pm s.media)).map (fun i => i.media) := by
          rw [hcongS scored hmemScored]
      _ = (scored.map (fun i => i.media)).filter pm := by
          rw [List.filter_map]
          rfl
      _ = (cands.filter (fun m => decide (0 < scoreOf searchTags m))).filter pm := by
          rw [hcollapse]
  exact ⟨hpermOut, hmem, hscore, hfetchSorted, hsortedOut, hstab, rfl⟩

/-- Claim C3 witness: the ranking theorem applied to the concrete
three-record corpus and the duplicate-free query `["cat", "dog"]`. -/
theorem searchByTags_ranking_witness :
    (["cat", "dog"] : List String).Nodup ∧
    ((searchByTags [recA, recB, recC] "g" ["cat", "dog"] none).Perm
      ((findManyByGuild [recA, recB, recC] "g" none).filter
        (fun m => decide (0 < scoreOf ["cat", "dog"] m)))) ∧
    ((searchByTags [recA, recB, recC] "g" ["cat", "dog"] none).Pairwise
      (fun a b => keyGE (rankKey ["cat", "dog"] a) (rankKey ["cat", "dog"] b))) :=
  ⟨by decide,
   (searchByTags_ranking [recA, recB, recC] "g" ["cat", "dog"] none (by decide)).1,
   (searchByTags_ranking [recA, recB, recC] "g" ["cat", "dog"] none
      (by decide)).2.2.2.2.1⟩

/-! ## C10: normalization lemmas -/

/-- Helper: lowercasing fixes every character of the canonical tag
class. -/
theorem toLower_of_tagChar (c : Char) (h : isTagChar c = true) :
    Char.toLower c = c := by
  unfold isTagChar at h
  simp only [Bool.or_eq_true, Bool.and_eq_true, decide_eq_true_eq,
    beq_iff_eq] at h
  have hcond : ¬(c.toNat ≥ 65 ∧ c.toNat ≤ 90) := by
    rcases h with (⟨h1, h2⟩ | ⟨h1, h2⟩) | h1
    · rw [Char.le_def] at h1 h2
      have g1 : 97 ≤ c.toNat := h1
      have g2 : c.toNat ≤ 122 := h2
      omega
    · rw [Char.le_def] at h1 h2
      have g1 : 48 ≤ c.toNat := h1
      have g2 : c.toNat ≤ 57 := h2
      omega
    · subst h1
      decide
  unfold Char.toLower
  dsimp only
  rw [if_neg hcond]

/-- Helper: a canonical tag character is never a separator. -/
theorem tagChar_not_sep (c : Char) (h : isTagChar c = true) :
    isSepChar c = false := by
  cases hs : isSepChar c
  · rfl
  · exfalso
    unfold isSepChar at hs
    simp only [Bool.or_eq_true, beq_iff_eq] at hs
    rcases hs with ((((((h1 | h1) | h1) | h1) | h1) | h1) | h1) <;> subst h1 <;>
      exact absurd h (by decide)

/-- Helper: `takeWhile` runs through a block that satisfies the
predicate everywhere. -/
theorem takeWhile_append_all {α : Type} (p : α → Bool) (xs ys : List α)
    (h : ∀ x ∈ xs, p x = true) :
    (xs ++ ys).takeWhile p = xs ++ ys.takeWhile p := by
  rw [List.takeWhile_append, if_pos]
  rw [List.takeWhile_eq_self_iff.mpr h]

/-- Helper: `dropWhile` runs through a block that satisfies the
predicate everywhere. -/
theorem dropWhile_append_all {α : Type} (p : α → Bool) (xs ys : List α)
    (h : ∀ x ∈ xs, p x = true) :
    (xs ++ ys).dropWhile p = ys.dropWhile p := by
  rw [List.dropWhile_append, if_pos]
  rw [List.dropWhile_eq_nil_iff.mpr h]
  rfl

/-- Helper: the characters of a join with spaces. -/
theorem joinSpace_data_cons (t : String) (ts : List String) (h : ts ≠ []) :
    (joinSpace (t :: ts)).data = t.data ++ ' ' :: (joinSpace ts).data := by
  cases ts with
  | nil => exact absurd rfl h
  | cons t2 rest =>
    show ((t ++ " ") ++ joinSpace (t2 :: rest)).data = _
    rw [String.data_append, String.data_append, List.append_assoc]
    rfl

/-- Helper: every character of a space-join is the space or a character
of one of the joined strings. -/
theorem joinSpace_mem_data (l : List String) :
    ∀ c ∈ (joinSpace l).data, c = ' ' ∨ ∃ t ∈ l, c ∈ t.data := by
  induction l with
  | nil =>
      intro c hc
      exact absurd hc (by simp [joinSpace])
  | cons t ts ih =>
      intro c hc
      cases ts with
      | nil =>
          right
          exact ⟨t, by simp, hc⟩
      | cons t2 rest =>
          rw [joinSpace_data_cons t (t2 :: rest) (by simp)] at hc
          rcases List.mem_append.mp hc with h1 | h2
          · right
            exact ⟨t, by simp, h1⟩
          · rcases List.mem_cons.mp h2 with rfl | h3
            · left; rfl
            · rcases ih c h3 with hsp | ⟨t3, ht3, hc3⟩
              · left; exact hsp
              · right; exact ⟨t3, List.mem_cons_of_mem t ht3, hc3⟩

/-- Helper: splitting a space-join of non-empty separator-free tokens
recovers exactly the tokens. -/
theorem jsSplit_joinSpace : ∀ (l : List String),
    (∀ t ∈ l, t.data ≠ []) →
    (∀ t ∈ l, ∀ c ∈ t.data, isSepChar c = false) →
    l ≠ [] → jsSplit isSepChar (joinSpace l).data = l.map String.data := by
  intro l
  induction l with
  | nil =>
      intro _ _ h
      exact absurd rfl h
  | cons t ts ih =>
      intro h1 h2 _
      have hts : ∀ c ∈ t.data, (fun c => !(isSepChar c)) c = true := by
        intro c hc
        simp [h2 t (by simp) c hc]
      cases ts with
      | nil =>
          show jsSplit isSepChar t.data = [t.data]
          rw [jsSplit_last isSepChar t.data (List.dropWhile_eq_nil_iff.mpr hts)]
          rw [List.takeWhile_eq_self_iff.mpr hts]
      | cons t2 rest =>
          rw [joinSpace_data_cons t (t2 :: rest) (by simp)]
          have hdrop : (t.data ++ ' ' :: (joinSpace (t2 :: rest)).data).dropWhile
              (fun c => !(isSepChar c)) = ' ' :: (joinSpace (t2 :: rest)).data := by
            rw [dropWhile_append_all _ _ _ hts]
            rw [List.dropWhile_cons]
            simp [show isSepChar ' ' = true from rfl]
          rw [jsSplit_cons isSepChar _ ' ' (joinSpace (t2 :: rest)).data hdrop]
          have htake : (t.data ++ ' ' :: (joinSpace (t2 :: rest)).data).takeWhile
              (fun c => !(isSepChar c)) = t.data := by
            rw [takeWhile_append_all _ _ _ hts]
            rw [List.takeWhile_cons]
            simp [show isSepChar ' ' = true from rfl]
          rw [htake]
          have hheadTag : ∃ c cs, (joinSpace (t2 :: rest)).data = c :: cs ∧
              isSepChar c = false := by
            cases hdt : t2.data with
            | nil => exact absurd hdt (h1 t2 (by simp))
            | cons c cs =>
                have hc : isSepChar c = false :=
                  h2 t2 (by simp) c (by rw [hdt]; simp)
                cases rest with
                | nil => exact ⟨c, cs, hdt, hc⟩
                | cons t3 rest2 =>
                    refine ⟨c, cs ++ ' ' :: (joinSpace (t3 :: rest2)).data, ?_, hc⟩
                    rw [joinSpace_data_cons t2 (t3 :: rest2) (by simp), hdt]
                    rfl
          have hhead : ((joinSpace (t2 :: rest)).data).dropWhile isSepChar =
              (joinSpace (t2 :: rest)).data := by
            rcases hheadTag with ⟨c, cs, heq, hc⟩
            rw [heq, List.dropWhile_cons, hc]
            simp
          rw [hhead]
          rw [ih (fun u hu => h1 u (List.mem_cons_of_mem t hu))
            (fun u hu => h2 u (List.mem_cons_of_mem t hu)) (by simp)]
          rfl

/-- Helper: deduplication only drops elements. -/
theorem dedupFirstAux_sublist : ∀ (l seen : List String),
    (dedupFirstAux seen l).Sublist l := by
  intro l
  induction l with
  | nil => intro seen; exact List.Sublist.refl []
  | cons x xs ih =>
      intro seen
      unfold dedupFirstAux
      by_cases hx : x ∈ seen
      · rw [if_pos hx]
        exact (ih seen).cons x
      · rw [if_neg hx]
        exact (ih (x :: seen)).cons₂ x

/-- Helper: nothing already seen is ever emitted. -/
theorem dedupFirstAux_not_seen : ∀ (l seen : List String) (x : String),
    x ∈ dedupFirstAux seen l → x ∉ seen := by
  intro l
  induction l with
  | nil =>
      intro seen x hx
      exact absurd hx (by simp [dedupFirstAux])
  | cons y ys ih =>
      intro seen x hx
      unfold dedupFirstAux at hx
      by_cases hy : y ∈ seen
      · rw [if_pos hy] at hx
        exact ih seen x hx
      · rw [if_neg hy] at hx
        rcases List.mem_cons.mp hx with rfl | hx2
        · exact hy
        · intro hxs
          exact ih (y :: seen) x hx2 (List.mem_cons_of_mem y hxs)

/-- Helper: the deduplicated list has no duplicates. -/
theorem dedupFirstAux_nodup : ∀ (l seen : List String),
    (dedupFirstAux seen l).Nodup := by
  intro l
  induction l with
  | nil => intro seen; simp [dedupFirstAux]
  | cons x xs ih =>
      intro seen
      unfold dedupFirstAux
      by_cases hx : x ∈ seen
      · rw [if_pos hx]
        exact ih seen
      · rw [if_neg hx]
        refine List.nodup_cons.mpr ⟨?_, ih (x :: seen)⟩
        intro hmem
        exact dedupFirstAux_not_seen xs (x :: seen) x hmem
          (List.mem_cons_self x seen)

/-- Helper: deduplication is the identity on a duplicate-free list
disjoint from what was seen. -/
theorem dedupFirstAux_eq_self : ∀ (l seen : List String),
    l.Nodup → (∀ x ∈ l, x ∉ seen) → dedupFirstAux seen l = l := by
  intro l
  induction l with
  | nil => intro seen _ _; rfl
  | cons x xs ih =>
      intro seen hnd hdisj
      obtain ⟨hx, hnd2⟩ := List.nodup_cons.mp hnd
      unfold dedupFirstAux
      rw [if_neg (hdisj x (List.mem_cons_self x xs))]
      congr 1
      apply ih (x :: seen) hnd2
      intro y hy hmem
      rcases List.mem_cons.mp hmem with rfl | hseen
      · exact hx hy
      · exact hdisj y (List.mem_cons_of_mem x hy) hseen

/-- Helper: every emitted token is non-empty, at most 50 characters and
made only of canonical tag characters. -/
theorem normalizeTokens_sound (s : String) :
    ∀ t ∈ normalizeTokens s,
      t.data ≠ [] ∧ t.data.length ≤ 50 ∧ ∀ c ∈ t.data, isTagChar c = true := by
  intro t ht
  unfold normalizeTokens at ht
  dsimp only at ht
  rcases List.mem_map.mp ht with ⟨tc, htc, rfl⟩
  rcases List.mem_filter.mp htc with ⟨htc2, hlen50⟩
  rcases List.mem_filter.mp htc2 with ⟨htc3, hlen0⟩
  rcases List.mem_map.mp htc3 with ⟨t0, _, rfl⟩
  refine ⟨?_, of_decide_eq_true hlen50, ?_⟩
  · intro hnil
    have hpos := of_decide_eq_true hlen0
    rw [show (String.mk (t0.filter isTagChar)).data = t0.filter isTagChar
      from rfl] at hnil
    rw [hnil] at hpos
    simp at hpos
  · intro c hc
    exact List.of_mem_filter hc

/-- Helper: `normalizeTags` is the identity on a canonical tag list
joined back with single spaces. -/
theorem normalizeTags_of_canonical (l : List String)
    (h1 : ∀ t ∈ l, t.data ≠ [])
    (h2 : ∀ t ∈ l, ∀ c ∈ t.data, isTagChar c = true)
    (h3 : ∀ t ∈ l, t.data.length ≤ 50)
    (h4 : l.Nodup) (h5 : l.length ≤ 20) :
    normalizeTags (joinSpace l) = l := by
  rcases eq_or_ne l [] with rfl | hne
  · exact normalizeTags_empty
  · unfold normalizeTags normalizeTokens
    dsimp only
    have hlow : (joinSpace l).data.map Char.toLower = (joinSpace l).data := by
      have hfix : ∀ c ∈ (joinSpace l).data, Char.toLower c = id c := by
        intro c hc
        rcases joinSpace_mem_data l c hc with rfl | ⟨t, htl, hct⟩
        · decide
        · exact toLower_of_tagChar c (h2 t htl c hct)
      rw [List.map_congr_left hfix, List.map_id]
    rw [hlow]
    rw [jsSplit_joinSpace l h1
      (fun t ht c hc => tagChar_not_sep c (h2 t ht c hc)) hne]
    have hstrip : (l.map String.data).map (fun tag => tag.filter isTagChar) =
        l.map String.data := by
      rw [List.map_map]
      apply List.map_congr_left
      intro t htl
      show (t.data).filter isTagChar = t.data
      exact List.filter_eq_self.mpr (fun c hc => h2 t htl c hc)
    rw [hstrip]
    have hf1 : (l.map String.data).filter (fun tag => decide (0 < tag.length)) =
        l.map String.data := by
      apply List.filter_eq_self.mpr
      intro tc htc
      rcases List.mem_map.mp htc with ⟨t, htl, rfl⟩
      exact decide_eq_true (List.length_pos.mpr (h1 t htl))
    rw [hf1]
    have hf2 : (l.map String.data).filter (fun tag => decide (tag.length ≤ 50)) =
        l.map String.data := by
      apply List.filter_eq_self.mpr
      intro tc htc
      rcases List.mem_map.mp htc with ⟨t, htl, rfl⟩
      exact decide_eq_true (h3 t htl)
    rw [hf2]
    have hmk : (l.map String.data).map (fun tag => String.mk tag) = l := by
      rw [List.map_map]
      rw [show ((fun tag => String.mk tag) ∘ String.data) = id from rfl,
        List.map_id]
    rw [hmk]
    unfold dedupFirst
    rw [dedupFirstAux_eq_self l [] h4 (by simp)]
    exact List.take_of_length_le h5

/-- Claim C10: tag normalization is idempotent — joining the output of
`normalizeTags` with a single space and normalizing again yields
exactly the same tag sequence — because every emitted token is already
non-empty, at most 50 characters, drawn from `[a-z0-9_]` (hence
lowercase-fixed), the output is pairwise distinct with at most 20
tokens, and it is a subsequence (first-seen order) of the pre-dedup
token stream. -/
theorem normalizeTags_idempotent (s : String) :
    normalizeTags (joinSpace (normalizeTags s)) = normalizeTags s ∧
    (∀ t ∈ normalizeTags s, t ≠ "" ∧ t.length ≤ 50 ∧
      ∀ c ∈ t.data, isTagChar c = true) ∧
    (normalizeTags s).Nodup ∧
    (normalizeTags s).length ≤ 20 ∧
    (normalizeTags s).Sublist (normalizeTokens s) := by
  have hsub : (normalizeTags s).Sublist (normalizeTokens s) := by
    unfold normalizeTags dedupFirst
    exact (List.take_sublist _ _).trans (dedupFirstAux_sublist _ [])
  have hsound : ∀ t ∈ normalizeTags s, t.data ≠ [] ∧ t.data.length ≤ 50 ∧
      ∀ c ∈ t.data, isTagChar c = true :=
    fun t ht => normalizeTokens_sound s t (hsub.subset ht)
  have hnd : (normalizeTags s).Nodup := by
    unfold normalizeTags dedupFirst
    exact (List.take_sublist _ _).nodup (dedupFirstAux_nodup _ [])
  have hlen : (normalizeTags s).length ≤ 20 := by
    unfold normalizeTags
    exact List.length_take_le 20 _
  refine ⟨?_, ?_, hnd, hlen, hsub⟩
  · exact normalizeTags_of_canonical (normalizeTags s)
      (fun t ht => (hsound t ht).1)
      (fun t ht => (hsound t ht).2.2)
      (fun t ht => (hsound t ht).2.1)
      hnd hlen
  · intro t ht
    obtain ⟨hne, hl, hch⟩ := hsound t ht
    refine ⟨?_, hl, hch⟩
    intro hemp
    exact hne (by rw [hemp])

/-- Claim C10 witness: idempotence at a concrete input with case
folding, a comma separator and a duplicate token. -/
theorem normalizeTags_idempotent_witness :
    normalizeTags (joinSpace (normalizeTags "Funny Cat, cat")) =
      normalizeTags "Funny Cat, cat" :=
  (normalizeTags_idempotent "Funny Cat, cat").1
